import Mathlib

/-!
Verification development for the build-context ingestion pipeline of
`mchirico/img` (`src/build.go`).

The Go source is shallowly embedded: byte streams are `List Nat` (each
element a byte value), the destination directory tree is an association
list from relative paths to nodes, and each Go function that the claims
touch (`isArchive`, `untar`, `contextFromStdin`, the frontend-attribute
construction and tag validation inside `Run`) gets a Lean definition that
mirrors its control flow.  Library calls made by the source
(`archive.DetectCompression`, `archive/tar` header reading, `gzip.NewReader`
header validation, `securejoin.SecureJoin`, `strings.SplitN`,
`filepath.Base`, docker reference normalization) are modelled from those
libraries' documented behaviour, each with a doc comment saying so.
DEFLATE decompression itself is not modelled: `untar` is parameterized by
the decompressed byte stream produced by an arbitrary decoder `inflate`,
which is sound because every property proved below holds for all decoders.
-/

namespace Img

/-- A byte of the stream, as a natural number below 256 in all real inputs. -/
abbrev Byte := Nat

/-- A path relative to the destination root, as a list of components. -/
abbrev Path := List String

/-- Association-list lookup (models a Go `map` read / `os.Stat` on our FS). -/
def Assoc.get {α β : Type} [DecidableEq α] : List (α × β) → α → Option β
  | [], _ => none
  | (k, v) :: rest, q => if k = q then some v else Assoc.get rest q

/-- Association-list update (models a Go `map` write / file-system mutation):
overwrites the binding if the key is present, otherwise appends it. -/
def Assoc.set {α β : Type} [DecidableEq α] : List (α × β) → α → β → List (α × β)
  | [], k, v => [(k, v)]
  | (k2, v2) :: rest, k, v =>
    if k2 = k then (k, v) :: rest else (k2, v2) :: Assoc.set rest k v

/-- A node of the destination tree: a directory or a regular file, each
carrying Unix permission bits (umask is not modelled). -/
inductive FSNode : Type
  | dir (mode : Nat)
  | file (mode : Nat) (content : List Byte)
deriving DecidableEq, Repr

/-- The destination directory tree: bindings from dest-relative paths to
nodes.  The destination root itself (path `[]`) always exists and is not
stored as a binding. -/
abbrev FS := List (Path × FSNode)

/-- The strict ancestors of a path: its non-empty proper initial segments. -/
def ancestors (p : Path) : List Path :=
  (List.range p.length).map (fun i => p.take i) |>.filter (fun q => q ≠ [])

/-- All non-empty initial segments of a path, shortest first, ending in the
path itself (the directories `os.MkdirAll` walks). -/
def initialSegs (p : Path) : List Path :=
  (List.range p.length).map (fun i => p.take (i + 1))

/-- Every strict ancestor of the path exists as a directory (what the OS
requires of `os.OpenFile` with `O_CREATE` for the final component). -/
def parentsOk (fs : FS) (p : Path) : Bool :=
  (ancestors p).all (fun q =>
    match Assoc.get fs q with
    | some (FSNode.dir _) => true
    | _ => false)

/-- Split a character list on `/`, keeping empty components (the component
iteration `SecureJoin` performs on the unsafe path). -/
def splitSlash : List Char → List String
  | [] => [""]
  | c :: cs =>
    if c = '/' then "" :: splitSlash cs
    else
      match splitSlash cs with
      | [] => [String.mk [c]]
      | s :: rest => String.mk (c :: s.data) :: rest

/-- Modelled from `github.com/cyphar/filepath-securejoin`: `SecureJoin(root,
unsafe)` resolves `unsafe` lexically against `root` — `.` and empty
components are dropped, `..` pops one component and is clamped at the root —
and returns the joined path.  For a symlink-free destination (the temp dir
here is fresh and this extractor never creates symlinks, since it skips all
entry types other than directory and regular file) SecureJoin never returns
an error, so the model is total.  The result is the dest-relative path. -/
def secureJoin (name : String) : Path :=
  (splitSlash name.data).foldl (fun acc c =>
    if c = "" ∨ c = "." then acc
    else if c = ".." then acc.dropLast
    else acc ++ [c]) []

/-- A dest-relative path that cannot escape the destination root: no empty,
`.` or `..` components. -/
def SafePath (p : Path) : Prop := ∀ c ∈ p, c ≠ "" ∧ c ≠ "." ∧ c ≠ ".."

instance (p : Path) : Decidable (SafePath p) := List.decidableBAll _ p

/-- Modelled from `os.Mkdir`-on-one-level as used by `os.MkdirAll`: an
existing directory is left untouched, an existing non-directory is an
error, an absent path gets a directory with the given permission bits. -/
def mkdirOne (fs : FS) (p : Path) (perm : Nat) : Except String FS :=
  match Assoc.get fs p with
  | some (FSNode.dir _) => Except.ok fs
  | some (FSNode.file _ _) => Except.error "mkdir: not a directory"
  | none => Except.ok (Assoc.set fs p (FSNode.dir perm))

/-- Modelled from `os.MkdirAll(target, perm)`: creates every missing
directory along the path with permission `perm`, leaving existing
directories untouched. -/
def mkdirAll (fs : FS) (p : Path) (perm : Nat) : Except String FS :=
  (initialSegs p).foldlM (fun acc q => mkdirOne acc q perm) fs

/-- Models the `tar.TypeDir` arm of `untar`'s switch (build.go:326-331):
`os.Stat(target)` succeeding (any existing node, or the destination root
itself) skips the entry; otherwise `os.MkdirAll(target, 0755)`. -/
def dirEntryStep (fs : FS) (p : Path) : Except String FS :=
  if p = [] then Except.ok fs
  else
    match Assoc.get fs p with
    | some _ => Except.ok fs
    | none => mkdirAll fs p 0o755

/-- Models the `tar.TypeReg` arm of `untar`'s switch (build.go:333-346):
`os.OpenFile(target, os.O_CREATE|os.O_RDWR, mode)` followed by
`io.Copy(f, tr)` and an immediate `f.Close()`.  `O_CREATE|O_RDWR` without
`O_TRUNC` means an existing file keeps its mode and is overwritten from
offset zero without truncation, so bytes of a longer pre-existing file
survive past the copied content. -/
def writeFileNoTrunc (fs : FS) (p : Path) (perm : Nat) (data : List Byte) : Except String FS :=
  if p = [] then Except.error "open: is a directory"
  else if parentsOk fs p then
    match Assoc.get fs p with
    | some (FSNode.dir _) => Except.error "open: is a directory"
    | some (FSNode.file m old) =>
      Except.ok (Assoc.set fs p (FSNode.file m (data ++ old.drop data.length)))
    | none => Except.ok (Assoc.set fs p (FSNode.file perm data))
  else Except.error "open: no such file or directory"

/-- Models `os.Create(path)` (`O_CREATE|O_TRUNC|O_RDWR`, mode `0666`)
followed by `io.Copy(f, buf)` and `f.Close()`, as done by
`contextFromStdin` for the non-archive case (build.go:272-280). -/
def createTruncWrite (fs : FS) (p : Path) (data : List Byte) : Except String FS :=
  if p = [] then Except.error "open: is a directory"
  else if parentsOk fs p then
    match Assoc.get fs p with
    | some (FSNode.dir _) => Except.error "open: is a directory"
    | some (FSNode.file m _) => Except.ok (Assoc.set fs p (FSNode.file m data))
    | none => Except.ok (Assoc.set fs p (FSNode.file 0o666 data))
  else Except.error "open: no such file or directory"

/-- The compression envelopes `docker/pkg/archive.DetectCompression`
recognizes. -/
inductive Compression : Type
  | uncompressed | bzip2 | gzip | xz
deriving DecidableEq, Repr

/-- `m` is an initial run of `src`. -/
def bytesHaveMagic (m src : List Byte) : Bool :=
  match m, src with
  | [], _ => true
  | _ :: _, [] => false
  | a :: as, b :: bs => a = b && bytesHaveMagic as bs

/-- Modelled from `docker/pkg/archive.DetectCompression`: compares the
stream's first bytes against the bzip2 (`BZh`), gzip (`1f 8b 08`) and xz
(`fd 37 7a 58 5a 00`) magic numbers; anything else is `Uncompressed`.
The three magics differ in their first byte, so the order of comparison
(a Go map iteration) is immaterial. -/
def DetectCompression (source : List Byte) : Compression :=
  if bytesHaveMagic [0x42, 0x5A, 0x68] source then Compression.bzip2
  else if bytesHaveMagic [0x1F, 0x8B, 0x08] source then Compression.gzip
  else if bytesHaveMagic [0xFD, 0x37, 0x7A, 0x58, 0x5A, 0x00] source then Compression.xz
  else Compression.uncompressed

/-- Modelled from `compress/gzip.NewReader`'s header validation: it reads
the 10-byte fixed header (failing with an EOF-style error when the stream
is shorter) and requires magic bytes `1f 8b` and compression method `8`,
otherwise it fails with `gzip: invalid header`.  Returns `none` on a valid
header (optional flagged fields beyond the fixed header are not exercised
by the inputs considered here). -/
def gzipHeaderCheck (bs : List Byte) : Option String :=
  if bs.length < 10 then some "gzip: unexpected EOF"
  else
    match bs with
    | m1 :: m2 :: cm :: _ =>
      if m1 = 0x1f ∧ m2 = 0x8b ∧ cm = 8 then none else some "gzip: invalid header"
    | _ => some "gzip: unexpected EOF"

/-- The bytes of one fixed-width tar header field. -/
def tarField (b : List Byte) (off len : Nat) : List Byte := (b.drop off).take len

/-- Modelled from `archive/tar`'s parser: numeric fields are trimmed of
leading and trailing spaces and NULs. -/
def trimTarField (b : List Byte) : List Byte :=
  let isPad := fun c : Byte => c = 0x20 ∨ c = 0
  ((b.dropWhile isPad).reverse.dropWhile isPad).reverse

/-- Modelled from `archive/tar`'s `parseOctal`: trim, empty means zero,
otherwise every byte must be an octal digit. -/
def parseOctal (b : List Byte) : Option Nat :=
  let t := trimTarField b
  if t.all (fun c => 0x30 ≤ c ∧ c ≤ 0x37) then
    some (t.foldl (fun a c => 8 * a + (c - 0x30)) 0)
  else none

/-- Modelled from `archive/tar`'s `parseNumeric`: a first byte with the
high bit set selects binary (base-256) representation (negative values are
invalid for the fields used here), otherwise octal. -/
def parseNumeric (b : List Byte) : Option Nat :=
  match b with
  | [] => parseOctal []
  | c :: rest =>
    if 0x80 ≤ c then
      if c &&& 0x40 ≠ 0 then none
      else some (rest.foldl (fun a d => 256 * a + d % 256) (c &&& 0x3F))
    else parseOctal (c :: rest)

/-- The 512-byte header block with its checksum field replaced by spaces,
the form over which the tar checksum is computed. -/
def chksumBytes (b : List Byte) : List Byte :=
  b.take 148 ++ List.replicate 8 0x20 ++ b.drop 156

/-- Unsigned tar header checksum. -/
def unsignedSum (b : List Byte) : Nat := (chksumBytes b).foldl (· + ·) 0

/-- Signed tar header checksum (bytes read as two's-complement int8). -/
def signedSum (b : List Byte) : Int :=
  (chksumBytes b).foldl (fun a c => a + (if 128 ≤ c then (c : Int) - 256 else (c : Int))) 0

/-- A NUL-terminated string field. -/
def parseCString (b : List Byte) : String :=
  String.mk ((b.takeWhile (fun c => c ≠ 0)).map Char.ofNat)

/-- The USTAR magic (`ustar\0`) at offset 257. -/
def ustarMagic : List Byte := [0x75, 0x73, 0x74, 0x61, 0x72, 0x00]

/-- One parsed tar header, with the fields `untar` consumes. -/
structure TarHeader : Type where
  name : String
  mode : Nat
  size : Nat
  typeflag : Byte
deriving DecidableEq, Repr

/-- Modelled from `archive/tar.Reader.readHeader` on one 512-byte block:
verify the checksum field against the unsigned and signed block sums
(mismatch or parse failure is `ErrHeader`), then read name, mode, size and
type flag.  A USTAR block with a non-empty prefix field has the prefix
joined ahead of the name; the legacy `TypeRegA` (NUL) flag becomes a
directory or regular file depending on a trailing slash. -/
def parseHeaderBlock (b : List Byte) : Option TarHeader :=
  match parseOctal (tarField b 148 8) with
  | none => none
  | some chk =>
    if (chk : Int) = signedSum b ∨ chk = unsignedSum b then
      match parseNumeric (tarField b 100 8), parseNumeric (tarField b 124 12) with
      | some mode, some size =>
        let name0 := parseCString (tarField b 0 100)
        let pfx := parseCString (tarField b 345 155)
        let name :=
          if tarField b 257 6 = ustarMagic ∧ pfx ≠ "" then pfx ++ "/" ++ name0 else name0
        let tf0 := (tarField b 156 1).headD 0
        let tf :=
          if tf0 = 0 then (if name.data.getLast? = some '/' then 0x35 else 0x30) else tf0
        some ⟨name, mode, size, tf⟩
      | _, _ => none
    else none

/-- Is the 512-byte block entirely zero? -/
def isZeroBlock (b : List Byte) : Bool := b.all (fun c => c = 0)

/-- Result of one `tar.Reader.Next` step over the remaining bytes. -/
inductive NextResult : Type
  | endOfArchive
  | entry (hdr : TarHeader) (rest : List Byte)
  | err (msg : String)
deriving Repr

/-- Modelled from `archive/tar.Reader.Next`/`readHeader`: end of data is a
clean end of archive (`io.EOF`); a short block is `unexpected EOF`; one
zero block followed by end of data or by a second zero block is a clean
end; a zero block followed by a non-zero block, or a block whose header
fails to parse, is `invalid tar header`. -/
def tarNext (bs : List Byte) : NextResult :=
  if bs = [] then NextResult.endOfArchive
  else if bs.length < 512 then NextResult.err "archive/tar: unexpected EOF"
  else
    let blk := bs.take 512
    let rest := bs.drop 512
    if isZeroBlock blk then
      if rest = [] then NextResult.endOfArchive
      else if rest.length < 512 then NextResult.err "archive/tar: unexpected EOF"
      else if isZeroBlock (rest.take 512) then NextResult.endOfArchive
      else NextResult.err "archive/tar: invalid tar header"
    else
      match parseHeaderBlock blk with
      | none => NextResult.err "archive/tar: invalid tar header"
      | some hdr => NextResult.entry hdr rest

/-- Entry types whose content stays in the header (`archive/tar`'s
`isHeaderOnlyType`): link, symlink, char, block, dir, fifo. -/
def headerOnlyType (tf : Byte) : Bool := 0x31 ≤ tf ∧ tf ≤ 0x36

/-- Content bytes are padded to a 512-byte boundary in the archive. -/
def padTo512 (n : Nat) : Nat := ((n + 511) / 512) * 512

/-- The archive-side byte count of an entry's content: header-only entry
types carry none. -/
def entrySize (hdr : TarHeader) : Nat :=
  if headerOnlyType hdr.typeflag then 0 else hdr.size

/-- The body of `untar`'s entry loop (build.go:317-347): resolve the entry
name with the secure join, then switch on the type flag — a directory
entry goes through the stat/`MkdirAll` arm, a regular-file entry through
the open/copy/close arm, and every other entry type is silently skipped. -/
def entryAction (fs : FS) (hdr : TarHeader) (data : List Byte) : Except String FS :=
  if hdr.typeflag = 0x35 then dirEntryStep fs (secureJoin hdr.name)
  else if hdr.typeflag = 0x30 then writeFileNoTrunc fs (secureJoin hdr.name) hdr.mode data
  else Except.ok fs

/-- The entry loop of `untar` (build.go:303-348) over the decompressed
byte stream, with the destination tree threaded through.  Mirrors the
source: `tr.Next()` errors other than `io.EOF` abort with that error, a
clean end of archive is success, and each entry is handled by
`entryAction` on the entry's available content bytes.  A regular-file
entry with truncated content has the available bytes written before the
copy error is reported, matching `io.Copy` writing what it read before
`ErrUnexpectedEOF`.  The result keeps the tree alongside the optional
error because the Go code's side effects on the destination persist when
an error is returned (on the `MkdirAll`-failure path Go may additionally
retain directories created before the failing component; those sit at the
same secure-joined paths, so the safety statements are unaffected by the
model returning the pre-entry tree there).  `fuel` bounds the recursion;
every iteration consumes at least 512 bytes, so `bs.length + 1` is always
enough. -/
def untarLoop : Nat → FS → List Byte → FS × Option String
  | 0, fs, _ => (fs, some "out of fuel")
  | fuel + 1, fs, bs =>
    match tarNext bs with
    | NextResult.endOfArchive => (fs, none)
    | NextResult.err e => (fs, some e)
    | NextResult.entry hdr rest =>
      match entryAction fs hdr (rest.take (entrySize hdr)) with
      | Except.error e => (fs, some e)
      | Except.ok fs2 =>
        if rest.length < entrySize hdr then (fs2, some "archive/tar: unexpected EOF")
        else untarLoop fuel fs2 (rest.drop (padTo512 (entrySize hdr)))

/-- `untar(dest, r)` (build.go:295-349): wraps the stream in
`gzip.NewReader` — unconditionally, failing on any stream without a gzip
header — and then iterates the tar entries of the decompressed stream.
DEFLATE decompression is abstracted by the `inflate` parameter giving the
decompressed bytes of the stream; theorems below hold for every decoder. -/
def untar (inflate : List Byte → List Byte) (stream : List Byte) (fs : FS) :
    FS × Option String :=
  match gzipHeaderCheck stream with
  | some e => (fs, some e)
  | none =>
    let bs := inflate stream
    untarLoop (bs.length + 1) fs bs

/-- `isArchive(header)` (build.go:284-292): a recognized compression magic
classifies as archive immediately; otherwise one tar header read is
attempted over exactly the given bytes and only a successful read (a
parsed entry) classifies as archive — any error, including truncation and
immediate EOF, classifies as not an archive. -/
def isArchive (header : List Byte) : Bool :=
  if DetectCompression header ≠ Compression.uncompressed then true
  else
    match tarNext header with
    | NextResult.entry _ _ => true
    | _ => false

/-- Modelled from the spec: the conventional default recipe filename
(`defaultDockerfileName`), defined in a repository file outside `src/`. -/
def defaultDockerfileName : String := "Dockerfile"

/-- `contextFromStdin(dockerfileName)` (build.go:236-281) over the stdin
byte stream: substitute the default recipe name for an empty one, peek at
most 512 bytes (`bufio.Peek` tolerates `io.EOF`, and does not consume, so
the extraction/copy below still sees the whole stream), classify, and
either untar the whole stream into the fresh temporary context directory
(modelled as an empty tree), reject the `-` recipe name for a non-archive
stream, or write the whole stream verbatim to the secure join of the
recipe name under the context root via `os.Create` + `io.Copy`.  The
temporary directory abstracts to the returned tree; Go returns `tmpDir`
together with any error, modelled by returning the tree alongside the
optional error.  This definition is the name substitution of
build.go:238-240. -/
def effDockerfileName (dockerfileName : String) : String :=
  if dockerfileName = "" then defaultDockerfileName else dockerfileName

/-- See the description above `effDockerfileName`; this is the body of
`contextFromStdin` after the name substitution of build.go:238-240. -/
def contextFromStdin (inflate : List Byte → List Byte) (dockerfileName : String)
    (stdin : List Byte) : FS × Option String :=
  if isArchive (stdin.take 512) then untar inflate stdin []
  else if effDockerfileName dockerfileName = "-" then
    ([], some "build context is not an archive")
  else
    match createTruncWrite [] (secureJoin (effDockerfileName dockerfileName)) stdin with
    | Except.error e => ([], some e)
    | Except.ok fs => (fs, none)

/-- Scan for the first `=`: `none` when absent, otherwise the characters
before and after it. -/
def splitAtFirstEq : List Char → Option (List Char × List Char)
  | [] => none
  | c :: cs =>
    if c = '=' then some ([], cs)
    else
      match splitAtFirstEq cs with
      | none => none
      | some (l, r) => some (c :: l, r)

/-- Modelled from Go `strings.SplitN(s, "=", 2)`: split at the first `=`
if any, otherwise return the whole string as a singleton. -/
def splitFirstEq (s : String) : List String :=
  match splitAtFirstEq s.data with
  | none => [s]
  | some (l, r) => [String.mk l, String.mk r]

/-- Modelled from Go `path/filepath.Base`: empty is `.`, trailing slashes
are dropped, an all-slash path is `/`, else the last component. -/
def filepathBase (s : String) : String :=
  if s = "" then "."
  else
    let cs := (s.toList.reverse.dropWhile (fun c => c = '/')).reverse
    if cs = [] then "/"
    else String.mk ((cs.reverse.takeWhile (fun c => c ≠ '/')).reverse)

/-- The attribute map built inside `Run`: a Go `map[string]string`. -/
abbrev AttrMap := List (String × String)

/-- Does `k` start with the string `p`? (Over the underlying characters.) -/
def listStartsWith : List Char → List Char → Bool
  | [], _ => true
  | _ :: _, [] => false
  | a :: as, b :: bs => a = b && listStartsWith as bs

/-- String version of `listStartsWith`. -/
def strStartsWith (p s : String) : Bool := listStartsWith p.data s.data

/-- One of `Run`'s two identical option loops (build.go:153-167): each
entry is split on the first `=`; an entry without `=` aborts with an error
naming it, otherwise `keyPfx + key` is set to the value. -/
def addSplitEntries (keyPfx errPfx : String) (entries : List String) (m : AttrMap) :
    Except String AttrMap :=
  entries.foldlM (fun acc e =>
    match splitFirstEq e with
    | [k, v] => Except.ok (Assoc.set acc (keyPfx ++ k) v)
    | _ => Except.error (errPfx ++ e)) m

/-- The user-supplied options `Run` turns into frontend attributes. -/
structure BuildOpts : Type where
  dockerfilePath : String
  target : String
  platforms : List String
  buildArgs : List String
  labels : List String
  noCache : Bool

/-- The map literal of build.go:142-147: `filename`, `target` and
`platform` are set unconditionally — `platform` defaulting to the host
platform string (`platforms.DefaultString()`, a parameter here) when no
platform was supplied, and multiple platforms joined with commas. -/
def baseAttrs (defaultPlatform : String) (o : BuildOpts) : AttrMap :=
  [("filename", filepathBase o.dockerfilePath),
   ("target", o.target),
   ("platform",
     String.intercalate "," (if o.platforms.length < 1 then [defaultPlatform] else o.platforms))]

/-- build.go:148-150: `no-cache` is set to the empty string exactly when
caching is disabled. -/
def cacheAttrs (defaultPlatform : String) (o : BuildOpts) : AttrMap :=
  if o.noCache then Assoc.set (baseAttrs defaultPlatform o) "no-cache" ""
  else baseAttrs defaultPlatform o

/-- The frontend-attribute construction of `Run` (build.go:129-167): the
unconditional map literal, the `no-cache` conditional, then the build-arg
and label option loops. -/
def mkFrontendAttrs (defaultPlatform : String) (o : BuildOpts) : Except String AttrMap :=
  match addSplitEntries "build-arg:" "invalid build-arg value " o.buildArgs
      (cacheAttrs defaultPlatform o) with
  | Except.error e => Except.error e
  | Except.ok m1 => addSplitEntries "label:" "invalid label value " o.labels m1

/-- Is the character allowed in the bare repository names the modelled
normalizer accepts? (lowercase letters and digits) -/
def bareNameChar (c : Char) : Bool := c.isLower || c.isDigit

/-- Modelled from the spec: `reference.ParseNormalizedNamed` of the docker
reference library (outside `src/`), restricted to the bare repository
names the claims exercise: a non-empty lowercase alphanumeric name is
prefixed with the default registry and namespace `docker.io/library/`;
anything else is rejected, standing in for the library's full validation
error. -/
def parseNormalizedNamed (s : String) : Except String String :=
  if s ≠ "" ∧ s.toList.all bareNameChar then
    Except.ok ("docker.io/library/" ++ s)
  else Except.error ("parsing image name " ++ s ++ " failed")

/-- Modelled from the spec: `reference.TagNameOnly` (outside `src/`)
appends the default tag `latest` when the reference's last component
carries no tag. -/
def tagNameOnly (s : String) : String :=
  let last := (s.toList.reverse.takeWhile (fun c => c ≠ '/')).reverse
  if last.contains ':' then s else s ++ ":latest"

/-- The tag validation and normalization phase of `Run` (build.go:73-75
and 108-119): an empty tag list is rejected with the `-t` error; otherwise
each tag is parsed to a normalized reference and given the default tag. -/
def tagPhase (tags : List String) : Except String (List String) :=
  if tags.length < 1 then Except.error "please specify an image tag with -t"
  else tags.mapM (fun t => do
    let n ← parseNormalizedNamed t
    pure (tagNameOnly n))

/-- `width` octal digit bytes of `n`, most significant first, zero padded. -/
def octalDigits (n width : Nat) : List Byte :=
  (List.range width).reverse.map (fun i => 0x30 + n / 8 ^ i % 8)

/-- Pad a byte list with NULs to `len`. -/
def padZeros (l : List Byte) (len : Nat) : List Byte :=
  l ++ List.replicate (len - l.length) 0

/-- A concrete 512-byte V7 tar header block for building test archives:
name, type flag, mode and size fields populated, checksum computed the
standard way (`%06o` followed by NUL and space over the block with the
checksum field as spaces), remaining fields zero. -/
def mkTarBlock (name : String) (typeflag : Byte) (mode size : Nat) : List Byte :=
  let pre := padZeros (name.data.map Char.toNat) 100 ++
    (octalDigits mode 7 ++ [0]) ++
    (octalDigits 0 7 ++ [0]) ++
    (octalDigits 0 7 ++ [0]) ++
    (octalDigits size 11 ++ [0]) ++
    (octalDigits 0 11 ++ [0])
  let sum := pre.foldl (· + ·) 0 + 8 * 0x20 + typeflag
  pre ++ (octalDigits sum 6 ++ [0, 0x20]) ++ ([typeflag] ++ List.replicate 355 0)

/-- One content block: the given bytes NUL-padded to 512. -/
def contentBlock (data : List Byte) : List Byte := padZeros data 512

/-- A minimal well-formed gzip header (magic `1f 8b`, DEFLATE, no flags). -/
def gzHdr : List Byte := [0x1f, 0x8b, 8, 0, 0, 0, 0, 0, 0, 0]

/-- A well-formed uncompressed tar stream: one empty regular file `a`.
The stream ends right after the entry, which `archive/tar` (and hence
`untar`'s `err == io.EOF` case) treats as a clean end of archive. -/
def plainTar : List Byte := mkTarBlock "a" 0x30 0o644 0

/-- A tar stream whose only entry climbs out of the destination:
the empty regular file `../passwd`. -/
def traversalTar : List Byte := mkTarBlock "../passwd" 0x30 0o644 0

/-- A tar stream with one regular-file entry `f`, mode `0644`, two bytes
`[1, 2]` of content. -/
def overwriteTar : List Byte :=
  mkTarBlock "f" 0x30 0o644 2 ++ contentBlock [1, 2]

instance {ε α : Type} [DecidableEq ε] [DecidableEq α] : DecidableEq (Except ε α)
  | Except.ok a, Except.ok b =>
    if h : a = b then isTrue (by rw [h]) else isFalse (by intro hh; cases hh; exact h rfl)
  | Except.error a, Except.error b =>
    if h : a = b then isTrue (by rw [h]) else isFalse (by intro hh; cases hh; exact h rfl)
  | Except.ok _, Except.error _ => isFalse (by intro hh; cases hh)
  | Except.error _, Except.ok _ => isFalse (by intro hh; cases hh)

theorem Assoc.get_set {α β : Type} [DecidableEq α] (m : List (α × β)) (k : α) (v : β) (q : α) :
    Assoc.get (Assoc.set m k v) q = if q = k then some v else Assoc.get m q := by
  induction m with
  | nil =>
    by_cases h : q = k
    · subst h; simp [Assoc.set, Assoc.get]
    · simp [Assoc.set, Assoc.get, h, Ne.symm h]
  | cons hd tl ih =>
    obtain ⟨k2, v2⟩ := hd
    by_cases hk : k2 = k
    · subst hk
      by_cases hq : q = k2
      · subst hq; simp [Assoc.set, Assoc.get]
      · simp [Assoc.set, Assoc.get, hq, Ne.symm hq]
    · by_cases hq : k2 = q
      · subst hq
        simp [Assoc.set, Assoc.get, hk, Ne.symm hk]
      · simp [Assoc.set, Assoc.get, hk, hq, ih]

theorem Assoc.get_mem {α β : Type} [DecidableEq α] (m : List (α × β)) (k : α) (v : β)
    (h : Assoc.get m k = some v) : (k, v) ∈ m := by
  induction m with
  | nil => simp [Assoc.get] at h
  | cons hd tl ih =>
    obtain ⟨k2, v2⟩ := hd
    by_cases h2 : k2 = k
    · subst h2
      have hv : v2 = v := by simpa [Assoc.get] using h
      subst hv
      exact List.mem_cons_self _ _
    · simp only [Assoc.get, if_neg h2] at h
      exact List.mem_cons_of_mem _ (ih h)

theorem safePath_of_subset {p q : Path} (hsub : ∀ c ∈ q, c ∈ p) (h : SafePath p) :
    SafePath q := fun c hc => h c (hsub c hc)

theorem secureJoin_safe (name : String) : SafePath (secureJoin name) := by
  unfold secureJoin
  generalize splitSlash name.data = l
  have main : ∀ (l : List String) (acc : Path), SafePath acc →
      SafePath (l.foldl (fun acc c =>
        if c = "" ∨ c = "." then acc
        else if c = ".." then acc.dropLast
        else acc ++ [c]) acc) := by
    intro l
    induction l with
    | nil => intro acc h; simpa using h
    | cons c rest ih =>
      intro acc h
      simp only [List.foldl_cons]
      by_cases h1 : c = "" ∨ c = "."
      · rw [if_pos h1]; exact ih acc h
      · rw [if_neg h1]
        by_cases h2 : c = ".."
        · rw [if_pos h2]
          exact ih _ (safePath_of_subset (fun x hx => List.dropLast_subset _ hx) h)
        · rw [if_neg h2]
          refine ih _ (fun x hx => ?_)
          rcases List.mem_append.mp hx with hx | hx
          · exact h x hx
          · have hxc : x = c := by simpa using hx
            subst hxc
            push_neg at h1
            exact ⟨h1.1, h1.2, h2⟩
  exact main l [] (by intro c hc; simp at hc)

/-- `mkdirOne` adds a binding only at its own path. -/
theorem mkdirOne_get {fs fs2 : FS} {p : Path} {perm : Nat}
    (h : mkdirOne fs p perm = Except.ok fs2) (q : Path) (n : FSNode)
    (hq : Assoc.get fs2 q = some n) : Assoc.get fs q = some n ∨ q = p := by
  unfold mkdirOne at h
  cases hfind : Assoc.get fs p with
  | some node =>
    cases node with
    | dir m =>
      rw [hfind] at h
      cases h
      exact Or.inl hq
    | file m c => rw [hfind] at h; cases h
  | none =>
    rw [hfind] at h
    cases h
    rw [Assoc.get_set] at hq
    by_cases hqp : q = p
    · exact Or.inr hqp
    · rw [if_neg hqp] at hq; exact Or.inl hq

/-- `mkdirOne` preserves every existing binding. -/
theorem mkdirOne_pres {fs fs2 : FS} {p : Path} {perm : Nat}
    (h : mkdirOne fs p perm = Except.ok fs2) (q : Path) (n : FSNode)
    (hq : Assoc.get fs q = some n) : Assoc.get fs2 q = some n := by
  unfold mkdirOne at h
  cases hfind : Assoc.get fs p with
  | some node =>
    cases node with
    | dir m => rw [hfind] at h; cases h; exact hq
    | file m c => rw [hfind] at h; cases h
  | none =>
    rw [hfind] at h
    cases h
    rw [Assoc.get_set]
    by_cases hqp : q = p
    · subst hqp; rw [hq] at hfind; cases hfind
    · rw [if_neg hqp]; exact hq

/-- After a successful `mkdirOne`, the path is a directory. -/
theorem mkdirOne_dir {fs fs2 : FS} {p : Path} {perm : Nat}
    (h : mkdirOne fs p perm = Except.ok fs2) : ∃ m, Assoc.get fs2 p = some (FSNode.dir m) := by
  unfold mkdirOne at h
  cases hfind : Assoc.get fs p with
  | some node =>
    cases node with
    | dir m => rw [hfind] at h; cases h; exact ⟨m, hfind⟩
    | file m c => rw [hfind] at h; cases h
  | none =>
    rw [hfind] at h
    cases h
    exact ⟨perm, by rw [Assoc.get_set, if_pos rfl]⟩

/-- The successful fold of `mkdirOne` over a path list adds bindings only
at paths of that list. -/
theorem foldMkdir_get {perm : Nat} :
    ∀ (L : List Path) (fs fs2 : FS),
    List.foldlM (fun acc q => mkdirOne acc q perm) fs L = Except.ok fs2 →
    ∀ q n, Assoc.get fs2 q = some n → Assoc.get fs q = some n ∨ q ∈ L := by
  intro L
  induction L with
  | nil =>
    intro fs fs2 h q n hq
    simp only [List.foldlM_nil] at h
    cases h
    exact Or.inl hq
  | cons a L ih =>
    intro fs fs2 h q n hq
    simp only [List.foldlM_cons] at h
    cases ha : mkdirOne fs a perm with
    | error e => rw [ha] at h; simp [Bind.bind, Except.bind] at h
    | ok fs1 =>
      rw [ha] at h
      simp only [Bind.bind, Except.bind] at h
      rcases ih fs1 fs2 h q n hq with h2 | h2
      · rcases mkdirOne_get ha q n h2 with h3 | h3
        · exact Or.inl h3
        · exact Or.inr (by simp [h3])
      · exact Or.inr (List.mem_cons_of_mem _ h2)

/-- The successful fold of `mkdirOne` preserves every existing binding. -/
theorem foldMkdir_pres {perm : Nat} :
    ∀ (L : List Path) (fs fs2 : FS),
    List.foldlM (fun acc q => mkdirOne acc q perm) fs L = Except.ok fs2 →
    ∀ q n, Assoc.get fs q = some n → Assoc.get fs2 q = some n := by
  intro L
  induction L with
  | nil =>
    intro fs fs2 h q n hq
    simp only [List.foldlM_nil] at h
    cases h
    exact hq
  | cons a L ih =>
    intro fs fs2 h q n hq
    simp only [List.foldlM_cons] at h
    cases ha : mkdirOne fs a perm with
    | error e => rw [ha] at h; simp [Bind.bind, Except.bind] at h
    | ok fs1 =>
      rw [ha] at h
      simp only [Bind.bind, Except.bind] at h
      exact ih fs1 fs2 h q n (mkdirOne_pres ha q n hq)

/-- After the successful fold of `mkdirOne`, every path of the list is a
directory. -/
theorem foldMkdir_dirs {perm : Nat} :
    ∀ (L : List Path) (fs fs2 : FS),
    List.foldlM (fun acc q => mkdirOne acc q perm) fs L = Except.ok fs2 →
    ∀ q ∈ L, ∃ m, Assoc.get fs2 q = some (FSNode.dir m) := by
  intro L
  induction L with
  | nil => intro fs fs2 h q hq; simp at hq
  | cons a L ih =>
    intro fs fs2 h q hq
    simp only [List.foldlM_cons] at h
    cases ha : mkdirOne fs a perm with
    | error e => rw [ha] at h; simp [Bind.bind, Except.bind] at h
    | ok fs1 =>
      rw [ha] at h
      simp only [Bind.bind, Except.bind] at h
      rcases List.mem_cons.mp hq with hq | hq
      · subst hq
        obtain ⟨m, hm⟩ := mkdirOne_dir ha
        exact ⟨m, foldMkdir_pres L fs1 fs2 h q _ hm⟩
      · exact ih fs1 fs2 h q hq

/-- Every element of an initial segment of `p` is an element of `p`. -/
theorem mem_initialSegs_subset {p q : Path} (h : q ∈ initialSegs p) : ∀ c ∈ q, c ∈ p := by
  unfold initialSegs at h
  simp only [List.mem_map, List.mem_range] at h
  obtain ⟨i, _, hq⟩ := h
  subst hq
  intro c hc
  exact List.take_subset _ _ hc

/-- A successful `dirEntryStep` preserves existing bindings and adds
bindings only at paths whose components come from the target path. -/
theorem dirEntryStep_get {fs fs2 : FS} {p : Path}
    (h : dirEntryStep fs p = Except.ok fs2) (q : Path) (n : FSNode)
    (hq : Assoc.get fs2 q = some n) :
    Assoc.get fs q = some n ∨ ∀ c ∈ q, c ∈ p := by
  unfold dirEntryStep at h
  by_cases hp : p = []
  · rw [if_pos hp] at h; cases h; exact Or.inl hq
  · rw [if_neg hp] at h
    cases hfind : Assoc.get fs p with
    | some node => rw [hfind] at h; cases h; exact Or.inl hq
    | none =>
      rw [hfind] at h
      rcases foldMkdir_get _ fs fs2 h q n hq with h2 | h2
      · exact Or.inl h2
      · exact Or.inr (mem_initialSegs_subset h2)

/-- A successful `writeFileNoTrunc` preserves other bindings and adds (or
replaces) a binding only at its target path. -/
theorem writeFileNoTrunc_get {fs fs2 : FS} {p : Path} {perm : Nat} {data : List Byte}
    (h : writeFileNoTrunc fs p perm data = Except.ok fs2) (q : Path) (n : FSNode)
    (hq : Assoc.get fs2 q = some n) : Assoc.get fs q = some n ∨ q = p := by
  unfold writeFileNoTrunc at h
  by_cases hp : p = []
  · rw [if_pos hp] at h; cases h
  · rw [if_neg hp] at h
    by_cases hpar : parentsOk fs p = true
    · rw [if_pos hpar] at h
      cases hfind : Assoc.get fs p with
      | some node =>
        cases node with
        | dir m => rw [hfind] at h; cases h
        | file m c =>
          rw [hfind] at h
          cases h
          rw [Assoc.get_set] at hq
          by_cases hqp : q = p
          · exact Or.inr hqp
          · rw [if_neg hqp] at hq; exact Or.inl hq
      | none =>
        rw [hfind] at h
        cases h
        rw [Assoc.get_set] at hq
        by_cases hqp : q = p
        · exact Or.inr hqp
        · rw [if_neg hqp] at hq; exact Or.inl hq
    · rw [if_neg hpar] at h; cases h

/-- A successful `entryAction` preserves existing bindings; every binding
it adds is at a safe (secure-joined) path. -/
theorem entryAction_get {fs fs2 : FS} {hdr : TarHeader} {data : List Byte}
    (h : entryAction fs hdr data = Except.ok fs2) (q : Path) (n : FSNode)
    (hq : Assoc.get fs2 q = some n) : Assoc.get fs q = some n ∨ SafePath q := by
  unfold entryAction at h
  by_cases h35 : hdr.typeflag = 0x35
  · rw [if_pos h35] at h
    rcases dirEntryStep_get h q n hq with h2 | h2
    · exact Or.inl h2
    · exact Or.inr (safePath_of_subset h2 (secureJoin_safe hdr.name))
  · rw [if_neg h35] at h
    by_cases h30 : hdr.typeflag = 0x30
    · rw [if_pos h30] at h
      rcases writeFileNoTrunc_get h q n hq with h2 | h2
      · exact Or.inl h2
      · subst h2; exact Or.inr (secureJoin_safe hdr.name)
    · rw [if_neg h30] at h; cases h; exact Or.inl hq

/-- Whatever the archive bytes, the entry loop only ever adds bindings at
safe paths: every binding of the resulting tree either was already present
or lies at a path free of empty, `.` and `..` components. -/
theorem untarLoop_no_escape :
    ∀ (fuel : Nat) (fs : FS) (bs : List Byte) (q : Path) (n : FSNode),
    Assoc.get (untarLoop fuel fs bs).1 q = some n →
    Assoc.get fs q = some n ∨ SafePath q := by
  intro fuel
  induction fuel with
  | zero => intro fs bs q n hq; exact Or.inl hq
  | succ fuel ih =>
    intro fs bs q n hq
    rw [untarLoop] at hq
    cases htn : tarNext bs with
    | endOfArchive => rw [htn] at hq; exact Or.inl hq
    | err e => rw [htn] at hq; exact Or.inl hq
    | entry hdr rest =>
      rw [htn] at hq
      dsimp only at hq
      cases hea : entryAction fs hdr (rest.take (entrySize hdr)) with
      | error e => rw [hea] at hq; exact Or.inl hq
      | ok fs2 =>
        rw [hea] at hq
        dsimp only at hq
        by_cases hlen : rest.length < entrySize hdr
        · rw [if_pos hlen] at hq
          exact entryAction_get hea q n hq
        · rw [if_neg hlen] at hq
          rcases ih fs2 _ q n hq with h2 | h2
          · exact entryAction_get hea q n h2
          · exact Or.inr h2

/-- `untar` only ever adds bindings at safe paths, for every decoder and
every input stream. -/
theorem untar_no_escape (inflate : List Byte → List Byte) (stream : List Byte)
    (fs : FS) (q : Path) (n : FSNode)
    (hq : Assoc.get (untar inflate stream fs).1 q = some n) :
    Assoc.get fs q = some n ∨ SafePath q := by
  unfold untar at hq
  cases hgz : gzipHeaderCheck stream with
  | some e => rw [hgz] at hq; exact Or.inl hq
  | none =>
    rw [hgz] at hq
    exact untarLoop_no_escape _ fs _ q n hq

theorem string_mk_data (s : String) : String.mk s.data = s := by cases s; rfl

theorem string_data_append (a b : String) : (a ++ b).data = a.data ++ b.data := by
  cases a; cases b; rfl

theorem listStartsWith_append : ∀ (a b : List Char), listStartsWith a (a ++ b) = true
  | [], _ => rfl
  | c :: cs, b => by simp [listStartsWith, listStartsWith_append cs b]

theorem strStartsWith_append (p s : String) : strStartsWith p (p ++ s) = true := by
  unfold strStartsWith
  rw [string_data_append]
  exact listStartsWith_append _ _

theorem splitAtFirstEq_append (k v : List Char) (hk : '=' ∉ k) :
    splitAtFirstEq (k ++ '=' :: v) = some (k, v) := by
  induction k with
  | nil => simp [splitAtFirstEq]
  | cons c cs ih =>
    have hc : c ≠ '=' := fun h => hk (h ▸ List.mem_cons_self _ _)
    have hcs : '=' ∉ cs := fun h => hk (List.mem_cons_of_mem _ h)
    simp [splitAtFirstEq, hc, ih hcs]

theorem splitFirstEq_append (k v : String) (hk : '=' ∉ k.data) :
    splitFirstEq (k ++ "=" ++ v) = [k, v] := by
  unfold splitFirstEq
  have hd : (k ++ "=" ++ v).data = k.data ++ '=' :: v.data := by
    rw [string_data_append, string_data_append]
    simp
  rw [hd, splitAtFirstEq_append k.data v.data hk]

/-- A successful option loop leaves every key without the loop's prefix
untouched. -/
theorem addSplitEntries_get_other {keyPfx errPfx : String} :
    ∀ (entries : List String) (m m2 : AttrMap),
    addSplitEntries keyPfx errPfx entries m = Except.ok m2 →
    ∀ k, strStartsWith keyPfx k = false → Assoc.get m2 k = Assoc.get m k := by
  intro entries
  induction entries with
  | nil =>
    intro m m2 h k hk
    unfold addSplitEntries at h
    simp only [List.foldlM_nil] at h
    cases h; rfl
  | cons e entries ih =>
    intro m m2 h k hk
    unfold addSplitEntries at h
    simp only [List.foldlM_cons] at h
    cases hsp : splitFirstEq e with
    | nil => rw [hsp] at h; simp [Bind.bind, Except.bind] at h
    | cons a as =>
      cases as with
      | nil => rw [hsp] at h; simp [Bind.bind, Except.bind] at h
      | cons b bs =>
        cases bs with
        | nil =>
          rw [hsp] at h
          simp only [Bind.bind, Except.bind] at h
          have h2 := ih _ m2 h k hk
          rw [h2, Assoc.get_set, if_neg ?hne]
          case hne =>
            intro hke
            rw [hke, strStartsWith_append] at hk
            cases hk
        | cons c cs => rw [hsp] at h; simp [Bind.bind, Except.bind] at h

/-- Every binding after a successful option loop either was already
present or carries the loop's key prefix. -/
theorem addSplitEntries_get_new {keyPfx errPfx : String} :
    ∀ (entries : List String) (m m2 : AttrMap),
    addSplitEntries keyPfx errPfx entries m = Except.ok m2 →
    ∀ k v, Assoc.get m2 k = some v →
      Assoc.get m k = some v ∨ strStartsWith keyPfx k = true := by
  intro entries
  induction entries with
  | nil =>
    intro m m2 h k v hk
    unfold addSplitEntries at h
    simp only [List.foldlM_nil] at h
    cases h
    exact Or.inl hk
  | cons e entries ih =>
    intro m m2 h k v hk
    unfold addSplitEntries at h
    simp only [List.foldlM_cons] at h
    cases hsp : splitFirstEq e with
    | nil => rw [hsp] at h; simp [Bind.bind, Except.bind] at h
    | cons a as =>
      cases as with
      | nil => rw [hsp] at h; simp [Bind.bind, Except.bind] at h
      | cons b bs =>
        cases bs with
        | nil =>
          rw [hsp] at h
          simp only [Bind.bind, Except.bind] at h
          rcases ih _ m2 h k v hk with h2 | h2
          · rw [Assoc.get_set] at h2
            by_cases hke : k = keyPfx ++ a
            · rw [hke]; exact Or.inr (strStartsWith_append _ _)
            · rw [if_neg hke] at h2; exact Or.inl h2
          · exact Or.inr h2
        | cons c cs => rw [hsp] at h; simp [Bind.bind, Except.bind] at h

/-- A single well-formed `key=value` option sets exactly the prefixed key
to the value. -/
theorem addSplitEntries_single (keyPfx errPfx k v : String) (m : AttrMap)
    (hk : '=' ∉ k.data) :
    addSplitEntries keyPfx errPfx [k ++ "=" ++ v] m =
      Except.ok (Assoc.set m (keyPfx ++ k) v) := by
  unfold addSplitEntries
  simp only [List.foldlM_cons, List.foldlM_nil, splitFirstEq_append k v hk]
  rfl

theorem baseAttrs_filename (dp : String) (o : BuildOpts) :
    Assoc.get (baseAttrs dp o) "filename" = some (filepathBase o.dockerfilePath) := by
  unfold baseAttrs
  simp only [Assoc.get]
  simp

theorem baseAttrs_target (dp : String) (o : BuildOpts) :
    Assoc.get (baseAttrs dp o) "target" = some o.target := by
  unfold baseAttrs
  simp only [Assoc.get]
  rw [if_neg (by decide)]
  simp

theorem baseAttrs_platform (dp : String) (o : BuildOpts) :
    Assoc.get (baseAttrs dp o) "platform" =
      some (String.intercalate ","
        (if o.platforms.length < 1 then [dp] else o.platforms)) := by
  unfold baseAttrs
  simp only [Assoc.get]
  rw [if_neg (by decide), if_neg (by decide)]
  simp

theorem baseAttrs_noCache_none (dp : String) (o : BuildOpts) :
    Assoc.get (baseAttrs dp o) "no-cache" = none := by
  unfold baseAttrs
  simp only [Assoc.get]
  rw [if_neg (by decide), if_neg (by decide), if_neg (by decide)]

theorem baseAttrs_keys (dp : String) (o : BuildOpts) (k v : String)
    (h : Assoc.get (baseAttrs dp o) k = some v) :
    k = "filename" ∨ k = "target" ∨ k = "platform" := by
  have hm := Assoc.get_mem _ _ _ h
  unfold baseAttrs at hm
  simp only [List.mem_cons, List.mem_singleton, Prod.mk.injEq] at hm
  rcases hm with ⟨h1, _⟩ | ⟨h1, _⟩ | ⟨h1, _⟩ | hfalse
  · exact Or.inl h1
  · exact Or.inr (Or.inl h1)
  · exact Or.inr (Or.inr h1)
  · simp at hfalse

theorem cacheAttrs_filename (dp : String) (o : BuildOpts) :
    Assoc.get (cacheAttrs dp o) "filename" = some (filepathBase o.dockerfilePath) := by
  unfold cacheAttrs
  by_cases hnc : o.noCache
  · rw [if_pos hnc, Assoc.get_set, if_neg (by decide)]
    exact baseAttrs_filename dp o
  · rw [if_neg hnc]
    exact baseAttrs_filename dp o

theorem cacheAttrs_target (dp : String) (o : BuildOpts) :
    Assoc.get (cacheAttrs dp o) "target" = some o.target := by
  unfold cacheAttrs
  by_cases hnc : o.noCache
  · rw [if_pos hnc, Assoc.get_set, if_neg (by decide)]
    exact baseAttrs_target dp o
  · rw [if_neg hnc]
    exact baseAttrs_target dp o

theorem cacheAttrs_platform (dp : String) (o : BuildOpts) :
    Assoc.get (cacheAttrs dp o) "platform" =
      some (String.intercalate ","
        (if o.platforms.length < 1 then [dp] else o.platforms)) := by
  unfold cacheAttrs
  by_cases hnc : o.noCache
  · rw [if_pos hnc, Assoc.get_set, if_neg (by decide)]
    exact baseAttrs_platform dp o
  · rw [if_neg hnc]
    exact baseAttrs_platform dp o

theorem cacheAttrs_noCache (dp : String) (o : BuildOpts) :
    Assoc.get (cacheAttrs dp o) "no-cache" = if o.noCache then some "" else none := by
  unfold cacheAttrs
  by_cases hnc : o.noCache
  · rw [if_pos hnc, if_pos hnc, Assoc.get_set, if_pos rfl]
  · rw [if_neg hnc, if_neg hnc]
    exact baseAttrs_noCache_none dp o

theorem cacheAttrs_keys (dp : String) (o : BuildOpts) (k v : String)
    (h : Assoc.get (cacheAttrs dp o) k = some v) :
    k = "filename" ∨ k = "target" ∨ k = "platform" ∨ (k = "no-cache" ∧ o.noCache = true) := by
  unfold cacheAttrs at h
  by_cases hnc : o.noCache
  · rw [if_pos hnc, Assoc.get_set] at h
    by_cases hk : k = "no-cache"
    · exact Or.inr (Or.inr (Or.inr ⟨hk, hnc⟩))
    · rw [if_neg hk] at h
      rcases baseAttrs_keys dp o k v h with h2 | h2 | h2
      · exact Or.inl h2
      · exact Or.inr (Or.inl h2)
      · exact Or.inr (Or.inr (Or.inl h2))
  · rw [if_neg hnc] at h
    rcases baseAttrs_keys dp o k v h with h2 | h2 | h2
    · exact Or.inl h2
    · exact Or.inr (Or.inl h2)
    · exact Or.inr (Or.inr (Or.inl h2))

/-- Successful request building decomposes into the two option loops over
the `no-cache`-adjusted base map. -/
theorem mkFrontendAttrs_ok {dp : String} {o : BuildOpts} {m : AttrMap}
    (h : mkFrontendAttrs dp o = Except.ok m) :
    ∃ m1, addSplitEntries "build-arg:" "invalid build-arg value " o.buildArgs
        (cacheAttrs dp o) = Except.ok m1 ∧
      addSplitEntries "label:" "invalid label value " o.labels m1 = Except.ok m := by
  unfold mkFrontendAttrs at h
  cases hba : addSplitEntries "build-arg:" "invalid build-arg value " o.buildArgs
      (cacheAttrs dp o) with
  | error e => rw [hba] at h; cases h
  | ok m1 => rw [hba] at h; exact ⟨m1, rfl, h⟩

set_option maxRecDepth 40000

/-- C1, counterexample: a tar archive whose only entry is named
`../passwd` extracts WITHOUT an error — the claim's "extraction fails with
an error" is false on the code.  `securejoin.SecureJoin` neutralizes the
traversal instead of rejecting it: the entry lands at `passwd` inside the
destination and `untar` returns success (for any decoder producing this
archive from the gzip-framed stream). -/
theorem C1_traversal_entry_extracts_without_error :
    (untar (fun _ => traversalTar) gzHdr []).2 = none ∧
    Assoc.get (untar (fun _ => traversalTar) gzHdr []).1 ["passwd"] =
      some (FSNode.file 0o644 []) := by
  constructor
  · decide
  · decide

/-- C1, amended: for every decoder, stream and starting destination tree,
extraction never creates a file or directory outside the destination —
every binding of the resulting tree either pre-existed or sits at a
dest-relative path free of `..`, `.` and empty components (entry names are
lexically clamped into the destination by the secure join); but extraction
does not fail on traversal or absolute names. -/
theorem C1_extraction_never_escapes_destination
    (inflate : List Byte → List Byte) (stream : List Byte) (fs : FS)
    (q : Path) (n : FSNode)
    (hq : Assoc.get (untar inflate stream fs).1 q = some n) :
    Assoc.get fs q = some n ∨ SafePath q :=
  untar_no_escape inflate stream fs q n hq

/-- Witness for the amended C1 theorem at the traversal archive: the entry
`../passwd` ends up at the safe in-destination path `passwd`. -/
theorem C1_extraction_never_escapes_destination_witness : SafePath ["passwd"] := by
  have h := C1_extraction_never_escapes_destination (fun _ => traversalTar) gzHdr []
    ["passwd"] (FSNode.file 0o644 []) (by decide)
  rcases h with h | h
  · exact absurd h (by decide)
  · exact h

/-- C2: the claim is right and the code is wrong.  `plainTar` is a
well-formed UNCOMPRESSED tar stream: the classifier accepts it (first
conjunct) and the entry loop itself extracts it cleanly (second conjunct),
yet `untar` fails on it at the decompression step with `gzip: invalid
header` for every decoder and every destination (third conjunct), because
`untar` wraps the stream in `gzip.NewReader` unconditionally instead of
decompressing only when compressed. -/
theorem C2_uncompressed_tar_fails_at_gzip_step :
    isArchive (plainTar.take 512) = true ∧
    untarLoop (plainTar.length + 1) [] plainTar =
      ([(["a"], FSNode.file 0o644 [])], none) ∧
    ∀ (inflate : List Byte → List Byte) (fs : FS),
      untar inflate plainTar fs = (fs, some "gzip: invalid header") := by
  refine ⟨by decide, by decide, ?_⟩
  intro inflate fs
  unfold untar
  have h : gzipHeaderCheck plainTar = some "gzip: invalid header" := by decide
  rw [h]

/-- C3, counterexample: extracting a regular-file entry `f` (mode `0644`,
content `[1, 2]`) over a pre-existing longer file (mode `0600`, content
`[9, 9, 9, 9]`) leaves `[1, 2, 9, 9]` — residue of the old bytes past the
copied content, because the open uses `O_CREATE|O_RDWR` without `O_TRUNC`
— and the old mode `0600`, not the entry's `0644`. -/
theorem C3_existing_file_keeps_residue_and_mode :
    untar (fun _ => overwriteTar) gzHdr [(["f"], FSNode.file 0o600 [9, 9, 9, 9])] =
      ([(["f"], FSNode.file 0o600 [1, 2, 9, 9])], none) := by
  decide

/-- C3, amended: the regular-file arm creates an absent file with the
entry's permission bits and exactly the entry's content, but a
pre-existing file keeps its own mode and is overwritten from offset zero
WITHOUT truncation, so bytes of a longer pre-existing file survive past
the copied content.  (The immediate close of the handle and the reporting
of a copy error are the `f.Close()` straight after `io.Copy` and the
loop's truncation error; file handles themselves are not modelled.) -/
theorem C3_file_entry_create_or_overwrite_no_truncate
    (fs : FS) (p : Path) (perm : Nat) (data : List Byte)
    (hp : p ≠ []) (hpar : parentsOk fs p = true) :
    (Assoc.get fs p = none →
      writeFileNoTrunc fs p perm data =
        Except.ok (Assoc.set fs p (FSNode.file perm data))) ∧
    (∀ m old, Assoc.get fs p = some (FSNode.file m old) →
      writeFileNoTrunc fs p perm data =
        Except.ok (Assoc.set fs p (FSNode.file m (data ++ old.drop data.length)))) := by
  constructor
  · intro hnone
    unfold writeFileNoTrunc
    rw [if_neg hp, if_pos hpar, hnone]
  · intro m old hsome
    unfold writeFileNoTrunc
    rw [if_neg hp, if_pos hpar, hsome]

/-- Witness for the amended C3 theorem: creating an absent file `g` yields
exactly the entry's mode and content. -/
theorem C3_file_entry_create_or_overwrite_no_truncate_witness :
    writeFileNoTrunc [] ["g"] 0o644 [7] = Except.ok [(["g"], FSNode.file 0o644 [7])] :=
  (C3_file_entry_create_or_overwrite_no_truncate [] ["g"] 0o644 [7]
    (by decide) (by decide)).1 (by decide)

/-- C5, counterexample: with no target specified (and caching enabled),
the attribute map still contains the key `target`, bound to the empty
string — an absent optional field present with an empty value, refuting
"no key is present with an empty value" for keys other than `no-cache`. -/
theorem C5_unspecified_target_key_present_empty :
    mkFrontendAttrs "linux/amd64"
      { dockerfilePath := "Dockerfile", target := "", platforms := [],
        buildArgs := [], labels := [], noCache := false } =
      Except.ok [("filename", "Dockerfile"), ("target", ""), ("platform", "linux/amd64")] := by
  decide

/-- C5, amended: `filename`, `target` and `platform` are always present —
`target` with the empty value when no target was specified, `filename`
with the recipe path's base name, `platform` with the joined (or host
default) platform string — while `no-cache` is present (with the empty
value) exactly when caching is disabled, and every other key carries a
`build-arg:` or `label:` prefix from a supplied option. -/
theorem C5_attr_map_key_policy (dp : String) (o : BuildOpts) (m : AttrMap)
    (h : mkFrontendAttrs dp o = Except.ok m) :
    Assoc.get m "filename" = some (filepathBase o.dockerfilePath) ∧
    Assoc.get m "target" = some o.target ∧
    Assoc.get m "platform" =
      some (String.intercalate ","
        (if o.platforms.length < 1 then [dp] else o.platforms)) ∧
    (Assoc.get m "no-cache" = some "" ↔ o.noCache = true) ∧
    (∀ k v, Assoc.get m k = some v →
      k = "filename" ∨ k = "target" ∨ k = "platform" ∨
      (k = "no-cache" ∧ o.noCache = true) ∨
      strStartsWith "build-arg:" k = true ∨ strStartsWith "label:" k = true) := by
  obtain ⟨m1, hba, hla⟩ := mkFrontendAttrs_ok h
  have hgFilename : Assoc.get m "filename" = Assoc.get (cacheAttrs dp o) "filename" := by
    rw [addSplitEntries_get_other _ _ _ hla _ (by decide),
      addSplitEntries_get_other _ _ _ hba _ (by decide)]
  have hgTarget : Assoc.get m "target" = Assoc.get (cacheAttrs dp o) "target" := by
    rw [addSplitEntries_get_other _ _ _ hla _ (by decide),
      addSplitEntries_get_other _ _ _ hba _ (by decide)]
  have hgPlatform : Assoc.get m "platform" = Assoc.get (cacheAttrs dp o) "platform" := by
    rw [addSplitEntries_get_other _ _ _ hla _ (by decide),
      addSplitEntries_get_other _ _ _ hba _ (by decide)]
  have hgNoCache : Assoc.get m "no-cache" = Assoc.get (cacheAttrs dp o) "no-cache" := by
    rw [addSplitEntries_get_other _ _ _ hla _ (by decide),
      addSplitEntries_get_other _ _ _ hba _ (by decide)]
  refine ⟨?_, ?_, ?_, ?_, ?_⟩
  · rw [hgFilename]; exact cacheAttrs_filename dp o
  · rw [hgTarget]; exact cacheAttrs_target dp o
  · rw [hgPlatform]; exact cacheAttrs_platform dp o
  · rw [hgNoCache, cacheAttrs_noCache]
    by_cases hnc : o.noCache
    · simp [hnc]
    · simp [hnc]
  · intro k v hkv
    rcases addSplitEntries_get_new _ _ _ hla k v hkv with h1 | h1
    · rcases addSplitEntries_get_new _ _ _ hba k v h1 with h2 | h2
      · rcases cacheAttrs_keys dp o k v h2 with h3 | h3 | h3 | h3
        · exact Or.inl h3
        · exact Or.inr (Or.inl h3)
        · exact Or.inr (Or.inr (Or.inl h3))
        · exact Or.inr (Or.inr (Or.inr (Or.inl h3)))
      · exact Or.inr (Or.inr (Or.inr (Or.inr (Or.inl h2))))
    · exact Or.inr (Or.inr (Or.inr (Or.inr (Or.inr h1))))

/-- Witness for the amended C5 theorem at a concrete option set with a
target, one build-arg and caching disabled: all three unconditional keys
are present with their values, `no-cache` is present empty. -/
theorem C5_attr_map_key_policy_witness :
    Assoc.get [("filename", "Dockerfile"), ("target", "dev"), ("platform", "linux/amd64"),
        ("no-cache", ""), ("build-arg:A", "1")] "filename" = some "Dockerfile" ∧
    Assoc.get [("filename", "Dockerfile"), ("target", "dev"), ("platform", "linux/amd64"),
        ("no-cache", ""), ("build-arg:A", "1")] "target" = some "dev" ∧
    Assoc.get [("filename", "Dockerfile"), ("target", "dev"), ("platform", "linux/amd64"),
        ("no-cache", ""), ("build-arg:A", "1")] "platform" = some "linux/amd64" ∧
    (Assoc.get [("filename", "Dockerfile"), ("target", "dev"), ("platform", "linux/amd64"),
        ("no-cache", ""), ("build-arg:A", "1")] "no-cache" = some "" ↔ True = true) := by
  have h := C5_attr_map_key_policy "linux/amd64"
    { dockerfilePath := "Dockerfile", target := "dev", platforms := [],
      buildArgs := ["A=1"], labels := [], noCache := true }
    [("filename", "Dockerfile"), ("target", "dev"), ("platform", "linux/amd64"),
      ("no-cache", ""), ("build-arg:A", "1")] (by decide)
  refine ⟨by simpa using h.1, h.2.1, by simpa using h.2.2.1, by simpa using h.2.2.2.1⟩

/-- C6: for every byte sequence shorter than the 512-byte header window the
classifier returns a Boolean classification with the tar read error
swallowed — on such input it classifies as archive exactly when a
compression magic is present — and the zero-length input is classified as
not an archive. -/
theorem C6_short_inputs_classified_without_error :
    (∀ bs : List Byte, bs.length < 512 →
      isArchive bs = decide (DetectCompression bs ≠ Compression.uncompressed)) ∧
    isArchive [] = false := by
  constructor
  · intro bs hlen
    unfold isArchive
    by_cases hdc : DetectCompression bs ≠ Compression.uncompressed
    · rw [if_pos hdc]
      simp [hdc]
    · rw [if_neg hdc]
      by_cases hnil : bs = []
      · subst hnil
        simp [tarNext, hdc]
      · unfold tarNext
        rw [if_neg hnil, if_pos hlen]
        simp [hdc]
  · decide

/-- Witness for C6: a three-byte gzip-magic stream is shorter than the
window and classifies as archive purely from the compression magic. -/
theorem C6_short_inputs_classified_without_error_witness :
    isArchive [0x1f, 0x8b, 0x08] =
      decide (DetectCompression [0x1f, 0x8b, 0x08] ≠ Compression.uncompressed) ∧
    isArchive [] = false :=
  ⟨C6_short_inputs_classified_without_error.1 [0x1f, 0x8b, 0x08] (by decide),
   C6_short_inputs_classified_without_error.2⟩

/-- C7: a directory entry whose target already exists (in particular a
pre-existing directory) is skipped — no failure, tree unchanged, modes
untouched; a successful directory step preserves every pre-existing
binding exactly; and an absent directory target is created together with
its missing parents, all as directories. -/
theorem C7_dir_entries_idempotent (fs : FS) (p : Path) :
    ((Assoc.get fs p).isSome = true → dirEntryStep fs p = Except.ok fs) ∧
    (∀ fs2, dirEntryStep fs p = Except.ok fs2 →
      ∀ q n, Assoc.get fs q = some n → Assoc.get fs2 q = some n) ∧
    (Assoc.get fs p = none → p ≠ [] → ∀ fs2, dirEntryStep fs p = Except.ok fs2 →
      ∀ q ∈ initialSegs p, ∃ m, Assoc.get fs2 q = some (FSNode.dir m)) := by
  refine ⟨?_, ?_, ?_⟩
  · intro hsome
    unfold dirEntryStep
    by_cases hp : p = []
    · rw [if_pos hp]
    · rw [if_neg hp]
      cases hfind : Assoc.get fs p with
      | some node => rfl
      | none => rw [hfind] at hsome; cases hsome
  · intro fs2 h q n hq
    unfold dirEntryStep at h
    by_cases hp : p = []
    · rw [if_pos hp] at h; cases h; exact hq
    · rw [if_neg hp] at h
      cases hfind : Assoc.get fs p with
      | some node => rw [hfind] at h; cases h; exact hq
      | none =>
        rw [hfind] at h
        exact foldMkdir_pres _ _ _ h q n hq
  · intro hnone hp fs2 h q hq
    unfold dirEntryStep at h
    rw [if_neg hp, hnone] at h
    exact foldMkdir_dirs _ _ _ h q hq

/-- Witness for C7: a pre-existing directory `d` of mode `0700` makes the
directory entry a no-op, leaving the mode unchanged. -/
theorem C7_dir_entries_idempotent_witness :
    dirEntryStep [(["d"], FSNode.dir 0o700)] ["d"] =
      Except.ok [(["d"], FSNode.dir 0o700)] :=
  (C7_dir_entries_idempotent [(["d"], FSNode.dir 0o700)] ["d"]).1 (by decide)

/-- Writing a single-component file into the fresh empty context tree
succeeds and yields exactly that file with `os.Create`'s `0666` bits. -/
theorem createTruncWrite_singleton (c : String) (data : List Byte) :
    createTruncWrite [] [c] data = Except.ok [([c], FSNode.file 0o666 data)] := by
  unfold createTruncWrite
  rw [if_neg (by simp), if_pos (by simp [parentsOk, ancestors])]
  rfl

/-- C8: when stdin is classified as not an archive, `contextFromStdin`
fails with the descriptive `build context is not an archive` error exactly
when the effective declared recipe name is `-`; otherwise (for an
effective recipe name resolving to a single path component) it writes the
stream's bytes verbatim — peeked bytes included — to that name under the
fresh context root and returns the context without error. -/
theorem C8_non_archive_stdin_materialization
    (inflate : List Byte → List Byte) (dockerfileName : String) (stdin : List Byte)
    (hna : isArchive (stdin.take 512) = false) :
    (effDockerfileName dockerfileName = "-" →
      contextFromStdin inflate dockerfileName stdin =
        ([], some "build context is not an archive")) ∧
    (effDockerfileName dockerfileName ≠ "-" →
      (∃ c, secureJoin (effDockerfileName dockerfileName) = [c]) →
      contextFromStdin inflate dockerfileName stdin =
        ([(secureJoin (effDockerfileName dockerfileName), FSNode.file 0o666 stdin)], none)) := by
  constructor
  · intro hdash
    unfold contextFromStdin
    rw [if_neg (by simp [hna]), if_pos hdash]
  · intro hne hex
    obtain ⟨c, hc⟩ := hex
    unfold contextFromStdin
    rw [if_neg (by simp [hna]), if_neg hne, hc, createTruncWrite_singleton]

/-- Witness for C8: a four-byte non-archive stream with an unspecified
recipe name lands verbatim in `Dockerfile` under the context root. -/
theorem C8_non_archive_stdin_materialization_witness :
    contextFromStdin (fun _ => []) "" [70, 82, 79, 77] =
      ([(secureJoin (effDockerfileName ""), FSNode.file 0o666 [70, 82, 79, 77])], none) :=
  (C8_non_archive_stdin_materialization (fun _ => []) "" [70, 82, 79, 77]
    (by decide)).2 (by decide) ⟨"Dockerfile", by decide⟩

/-- C9: each build-arg and label option is split on its first `=` into a
prefixed key/value binding (first two conjuncts, for any key without `=`
and any value, even one containing `=`); the concrete option set
`--build-arg FOO=bar --label color=red` produces exactly
`build-arg:FOO=bar` and `label:color=red` and no other prefixed keys
(third and fourth conjuncts); and an option without `=` fails request
building with an error naming the entry (last conjunct). -/
theorem C9_option_split_semantics :
    (∀ (k v : String) (m : AttrMap), '=' ∉ k.data →
      addSplitEntries "build-arg:" "invalid build-arg value " [k ++ "=" ++ v] m =
        Except.ok (Assoc.set m ("build-arg:" ++ k) v)) ∧
    (∀ (k v : String) (m : AttrMap), '=' ∉ k.data →
      addSplitEntries "label:" "invalid label value " [k ++ "=" ++ v] m =
        Except.ok (Assoc.set m ("label:" ++ k) v)) ∧
    mkFrontendAttrs "linux/amd64"
      { dockerfilePath := "Dockerfile", target := "", platforms := [],
        buildArgs := ["FOO=bar"], labels := ["color=red"], noCache := false } =
      Except.ok [("filename", "Dockerfile"), ("target", ""), ("platform", "linux/amd64"),
        ("build-arg:FOO", "bar"), ("label:color", "red")] ∧
    (∀ k v, Assoc.get [("filename", "Dockerfile"), ("target", ""),
        ("platform", "linux/amd64"), ("build-arg:FOO", "bar"), ("label:color", "red")] k =
          some v →
      strStartsWith "build-arg:" k = true ∨ strStartsWith "label:" k = true →
      (k = "build-arg:FOO" ∧ v = "bar") ∨ (k = "label:color" ∧ v = "red")) ∧
    mkFrontendAttrs "linux/amd64"
      { dockerfilePath := "Dockerfile", target := "", platforms := [],
        buildArgs := ["NOEQUALS"], labels := [], noCache := false } =
      Except.error "invalid build-arg value NOEQUALS" := by
  refine ⟨?_, ?_, by decide, ?_, by decide⟩
  · intro k v m hk; exact addSplitEntries_single _ _ k v m hk
  · intro k v m hk; exact addSplitEntries_single _ _ k v m hk
  · intro k v hget hpfx
    have hm := Assoc.get_mem _ _ _ hget
    simp only [List.mem_cons, Prod.mk.injEq] at hm
    rcases hm with ⟨rfl, rfl⟩ | ⟨rfl, rfl⟩ | ⟨rfl, rfl⟩ | ⟨rfl, rfl⟩ | ⟨rfl, rfl⟩ | hfalse
    · rcases hpfx with hp | hp <;> exact absurd hp (by decide)
    · rcases hpfx with hp | hp <;> exact absurd hp (by decide)
    · rcases hpfx with hp | hp <;> exact absurd hp (by decide)
    · exact Or.inl ⟨rfl, rfl⟩
    · exact Or.inr ⟨rfl, rfl⟩
    · simp at hfalse

/-- Witness for C9: the build-arg loop on `FOO=bar` alone. -/
theorem C9_option_split_semantics_witness :
    addSplitEntries "build-arg:" "invalid build-arg value " ["FOO" ++ "=" ++ "bar"] [] =
      Except.ok (Assoc.set [] ("build-arg:" ++ "FOO") "bar") :=
  C9_option_split_semantics.1 "FOO" "bar" [] (by decide)

/-- C10: request building fails when no tag is supplied, and the tag
`myapp` normalizes to primary tag `docker.io/library/myapp:latest` — the
default tag `latest` added, equal to `myapp:latest` up to the default
registry/namespace prefixing. -/
theorem C10_tags_required_and_defaulted :
    tagPhase [] = Except.error "please specify an image tag with -t" ∧
    tagPhase ["myapp"] = Except.ok ["docker.io/library/myapp:latest"] ∧
    "docker.io/library/myapp:latest" = "docker.io/library/" ++ "myapp:latest" := by
  refine ⟨by decide, by decide, by decide⟩

end Img
